import Mathlib

/-!
Shallow embedding of `src/extras/rawhid/hid_LINUX.c` (PJRC raw HID access
library, libusb-1.0 port) and proofs about its discovery/matching pipeline,
report-descriptor item decoder, registry and transport contract.

The external libusb capability (device enumeration, open/claim/detach,
control and interrupt transfers) is modelled as input data: every per-call
outcome the C code can observe is a field of the environment.  Machine
bytes are `Nat` taken `% 256` at each read; C `int` values are `Int`;
functions that can fail return `Option` (`none` models a negative return),
and resource-affecting libusb calls are recorded as an event trace.
-/

namespace RawHid

/-- Identity of a `libusb_device_handle`: the (device, interface,
altsetting) indices of the candidate whose `libusb_open` created it. -/
abbrev Handle := Nat × Nat × Nat

/-- Observable resource actions performed through the external USB stack. -/
inductive Ev where
  | openDev : Handle → Ev
  | releaseI : Handle → Nat → Ev
  | closeDev : Handle → Ev
  | record : Handle → Ev
  deriving Repr, DecidableEq

/-- One registry entry, `struct hid_struct`: the handle (`none` models a
NULL `libusb_device_handle` pointer), the `open` flag, the claimed
interface number and the two endpoint addresses. -/
structure Hid where
  handle : Option Handle
  openFlag : Bool
  iface : Nat
  ep_in : Nat
  ep_out : Nat
  deriving Repr, DecidableEq

/-- The size-class table of `hid_parse_item`: `const int table[4] = {0, 1, 2, 4}`. -/
def table : List Nat := [0, 1, 2, 4]

/-- Read one byte of a buffer (C `uint8_t` access). -/
def byteAt (buf : Nat → Nat) (i : Nat) : Nat := buf i % 256

/-- `hid_parse_item(&val, &data, end)`: decode one HID report-descriptor
item at cursor `p` with exclusive bound `e`.  `none` models the `-1`
failure return; `some (tag, val, p')` models returning `tag`, storing
`val`, and advancing `*data` to `p'`. -/
def hid_parse_item (buf : Nat → Nat) (p e : Nat) : Option (Nat × Nat × Nat) :=
  if p ≥ e then none
  else if byteAt buf p = 0xFE then
    -- long item, HID 1.11, 6.2.2.3
    if p + 5 ≥ e ∨ p + byteAt buf (p + 1) ≥ e then none
    else some (byteAt buf (p + 2), 0, p + (byteAt buf (p + 1) + 5) + 1)
  else
    -- short item, HID 1.11, 6.2.2.2; the switch cases appear in source order
    let m := byteAt buf p % 4
    let len := table.getD m 0
    if p + len + 1 ≥ e then none
    else
      let val :=
        if m = 3 then
          byteAt buf (p + 1) ||| (byteAt buf (p + 2) <<< 8) |||
          (byteAt buf (p + 3) <<< 16) ||| (byteAt buf (p + 4) <<< 24)
        else if m = 2 then byteAt buf (p + 1) ||| (byteAt buf (p + 2) <<< 8)
        else if m = 1 then byteAt buf (p + 1)
        else 0
      some (byteAt buf p &&& 0xFC, val, p + len + 1)

/-- The descriptor scan loop of `rawhid_open`: starting from the running
values `(pg, u)` of `parsed_usage_page` / `parsed_usage`, repeatedly decode
items over `[p, e)`; a tag-4 item overwrites `pg`, a tag-8 item overwrites
`u`; stop on decode failure, on reaching `e`, or once both are non-zero.
`fuel` bounds the recursion; every successful decode advances the cursor,
so any `fuel ≥ e - p` gives the loop's exact behaviour. -/
def scanLoop (buf : Nat → Nat) (e : Nat) : Nat → Nat → Nat → Nat → Nat × Nat
  | 0, _, pg, u => (pg, u)
  | fuel + 1, p, pg, u =>
    if p < e then
      match hid_parse_item buf p e with
      | none => (pg, u)
      | some (tag, val, p') =>
        let pg' := if tag = 4 then val else pg
        let u' := if tag = 8 then val else u
        if pg' ≠ 0 ∧ u' ≠ 0 then (pg', u') else scanLoop buf e fuel p' pg' u'
    else (pg, u)

/-- Scan one candidate's fetched report-descriptor bytes, starting from the
running `parsed_usage_page` / `parsed_usage` values `pg`, `u`. -/
def candScan (bytes : List Nat) (pg u : Nat) : Nat × Nat :=
  scanLoop (fun idx => bytes.getD idx 0) bytes.length (bytes.length + 1) 0 pg u

/-- One alternate setting of a USB interface, together with the outcome of
every external call the candidate-processing code can make on it. -/
structure AltSetting where
  bInterfaceClass : Nat
  bInterfaceSubClass : Nat
  bInterfaceProtocol : Nat
  /-- `bEndpointAddress` bytes, in listed order. -/
  endpoints : List Nat
  /-- does `libusb_open` succeed for this candidate? -/
  openOk : Bool
  /-- does `libusb_kernel_driver_active` report a driver? -/
  kernelDriverActive : Bool
  /-- does `libusb_detach_kernel_driver` succeed? -/
  detachOk : Bool
  /-- does `libusb_claim_interface` succeed? -/
  claimOk : Bool
  /-- report descriptor fetch: `none` models a negative transfer length. -/
  descriptor : Option (List Nat)
  /-- does `malloc` succeed? -/
  allocOk : Bool

/-- One interface of a configuration descriptor. -/
structure InterfaceDesc where
  altsettings : List AltSetting

/-- The first configuration descriptor of a device. -/
structure ConfigDesc where
  interfaces : List InterfaceDesc

/-- One enumerated USB device. -/
structure Device where
  /-- does `libusb_get_device_descriptor` succeed? -/
  descOk : Bool
  idVendor : Nat
  idProduct : Nat
  /-- `none` models `libusb_get_config_descriptor` failing. -/
  config : Option ConfigDesc

/-- The enumerated world `rawhid_open` runs against. -/
structure Env where
  /-- does `libusb_get_device_list` succeed (`cnt ≥ 0`)? -/
  listOk : Bool
  devices : List Device

/-- The endpoint-selection pass over one altsetting's endpoint list:
take the first IN endpoint (`bEndpointAddress & 0x80` set, value
`addr & 0x7F`) and the first OUT endpoint (value `addr`), a slot counting
as unset while it is zero. -/
def scanEndpoints (eps : List Nat) : Nat × Nat :=
  eps.foldl
    (fun st a =>
      let addr := a % 256
      if addr &&& 0x80 ≠ 0 then
        (if st.1 = 0 then addr &&& 0x7F else st.1, st.2)
      else
        (st.1, if st.2 = 0 then addr else st.2))
    (0, 0)

/-- Running state of one `rawhid_open` call: the entry count, the two
function-scope parsed-usage variables, the entries added so far, and the
emitted event trace. -/
structure DState where
  count : Nat
  pg : Nat
  u : Nat
  entries : List Hid
  evs : List Ev
  deriving Repr, DecidableEq

/-- Process one alternate-setting candidate `(i, j, k)` exactly as the body
of the innermost loop of `rawhid_open` does: class/subclass/protocol
filter, endpoint selection, open, kernel-driver detach, claim, descriptor
fetch, descriptor scan (updating the running `pg`/`u`), usage filter,
allocation, and registration. -/
def procAlt (up us : Int) (i j k : Nat) (alt : AltSetting) (s : DState) : DState :=
  if alt.bInterfaceClass ≠ 3 then s
  else if alt.bInterfaceSubClass ≠ 0 then s
  else if alt.bInterfaceProtocol ≠ 0 then s
  else if (scanEndpoints alt.endpoints).1 = 0 then s
  else if ¬ alt.openOk then s
  -- from here the device is open; each exit path's trace starts with the
  -- open event of this candidate's `libusb_open`
  else if alt.kernelDriverActive ∧ ¬ alt.detachOk then
    { s with evs := s.evs ++ [Ev.openDev (i, j, k), Ev.closeDev (i, j, k)] }
  else if ¬ alt.claimOk then
    { s with evs := s.evs ++ [Ev.openDev (i, j, k), Ev.closeDev (i, j, k)] }
  else
    match alt.descriptor with
    | none =>
      { s with evs := s.evs ++ [Ev.openDev (i, j, k),
          Ev.releaseI (i, j, k) j, Ev.closeDev (i, j, k)] }
    | some bytes =>
      -- the parse loop has run: the running pg/u are updated on every
      -- later path, rejecting or not
      if (candScan bytes s.pg s.u).1 = 0 ∨ (candScan bytes s.pg s.u).2 = 0 ∨
         (up > 0 ∧ ((candScan bytes s.pg s.u).1 : Int) ≠ up) ∨
         (us > 0 ∧ ((candScan bytes s.pg s.u).2 : Int) ≠ us) then
        { s with
            pg := (candScan bytes s.pg s.u).1,
            u := (candScan bytes s.pg s.u).2,
            evs := s.evs ++ [Ev.openDev (i, j, k),
              Ev.releaseI (i, j, k) j, Ev.closeDev (i, j, k)] }
      else if ¬ alt.allocOk then
        { s with
            pg := (candScan bytes s.pg s.u).1,
            u := (candScan bytes s.pg s.u).2,
            evs := s.evs ++ [Ev.openDev (i, j, k),
              Ev.releaseI (i, j, k) j, Ev.closeDev (i, j, k)] }
      else
        { s with
            pg := (candScan bytes s.pg s.u).1,
            u := (candScan bytes s.pg s.u).2,
            entries := s.entries ++ [⟨some (i, j, k), true, j,
              (scanEndpoints alt.endpoints).1, (scanEndpoints alt.endpoints).2⟩],
            evs := s.evs ++ [Ev.openDev (i, j, k), Ev.record (i, j, k)],
            count := s.count + 1 }

/-- The altsetting loop (`for k`) of `rawhid_open`.  Note: faithful to the
source, it has no `count < max` guard. -/
def procAlts (up us : Int) (i j : Nat) : Nat → List AltSetting → DState → DState
  | _, [], s => s
  | k, alt :: rest, s => procAlts up us i j (k + 1) rest (procAlt up us i j k alt s)

/-- The interface loop (`for j`) of `rawhid_open`, guarded by `count < max`. -/
def procIfaces (mx up us : Int) (i : Nat) : Nat → List InterfaceDesc → DState → DState
  | _, [], s => s
  | j, ifc :: rest, s =>
    if (s.count : Int) < mx then
      procIfaces mx up us i (j + 1) rest (procAlts up us i j 0 ifc.altsettings s)
    else s

/-- Per-device processing of `rawhid_open`: device-descriptor read,
vendor/product filter, configuration-descriptor read, interface loop. -/
def procDevice (mx v pd up us : Int) (i : Nat) (dev : Device) (s : DState) : DState :=
  if ¬ dev.descOk then s
  else if v > 0 ∧ (dev.idVendor : Int) ≠ v then s
  else if pd > 0 ∧ (dev.idProduct : Int) ≠ pd then s
  else
    match dev.config with
    | none => s
    | some conf => procIfaces mx up us i 0 conf.interfaces s

/-- The device loop (`for i`) of `rawhid_open`, guarded by `count < max`. -/
def procDevices (mx v pd up us : Int) : Nat → List Device → DState → DState
  | _, [], s => s
  | i, d :: rest, s =>
    if (s.count : Int) < mx then
      procDevices mx v pd up us (i + 1) rest (procDevice mx v pd up us i d s)
    else s

/-- `hid_close(hid)`: if the handle is non-NULL, release the claimed
interface, close the connection and NULL the handle.  Faithful to the
source, the `open` flag is not touched. -/
def hid_close (h : Hid) : Hid × List Ev :=
  match h.handle with
  | none => (h, [])
  | some hd => ({ h with handle := none }, [Ev.releaseI hd h.iface, Ev.closeDev hd])

/-- The event trace of `free_all_hid()`: `hid_close` on every entry in
list order (the entries themselves are then freed). -/
def free_all_hid_evs (st : List Hid) : List Ev :=
  st.flatMap (fun h => (hid_close h).2)

/-- `rawhid_open(max, vid, pid, usage_page, usage)` as a function of the
previous registry `st` and the enumerated environment.  Returns the new
registry, the returned count, and the emitted event trace.  The teardown
of the previous registry happens first, before the `max < 1` check and the
device-list fetch. -/
def rawhid_open (st : List Hid) (env : Env) (mx v pd up us : Int) :
    List Hid × Int × List Ev :=
  let evs0 := free_all_hid_evs st
  if mx < 1 then ([], 0, evs0)
  else if ¬ env.listOk then ([], 0, evs0)
  else
    let s := procDevices mx v pd up us 0 env.devices ⟨0, 0, 0, [], []⟩
    (s.entries, (s.count : Int), evs0 ++ s.evs)

/-- `get_hid(num)`: walk the registry list while `num > 0`; note that any
`num ≤ 0` yields the first entry. -/
def get_hid (st : List Hid) (num : Int) : Option Hid :=
  match st with
  | [] => none
  | h :: rest => if num > 0 then get_hid rest (num - 1) else some h

/-- Outcome of a blocking interrupt-IN transfer, as `rawhid_recv`
distinguishes it: success with a transferred byte count (`r == 0`),
`LIBUSB_ERROR_TIMEOUT`, or any other error. -/
inductive XferRes where
  | ok : Int → XferRes
  | timeout : XferRes
  | err : XferRes

/-- `rawhid_recv(num, buf, len, timeout)`: look up the entry; `-1` if
absent or its `open` flag is clear; otherwise submit the interrupt-IN
transfer (`xf` is the external transfer outcome, given the entry's handle
— possibly NULL — and `ep_in | 0x80`) and map its result. -/
def rawhid_recv (st : List Hid) (xf : Option Handle → Nat → Int → Int → XferRes)
    (num len timeoutMs : Int) : Int :=
  match get_hid st num with
  | none => -1
  | some hid =>
    if ¬ hid.openFlag then -1
    else
      match xf hid.handle (hid.ep_in ||| 0x80) len timeoutMs with
      | XferRes.ok n => n
      | XferRes.timeout => 0
      | XferRes.err => -1

/-- `rawhid_close(num)`: look up the entry as `get_hid` does; if present
and its `open` flag is set, run `hid_close` on it in place. -/
def rawhid_close (st : List Hid) (num : Int) : List Hid × List Ev :=
  match st with
  | [] => ([], [])
  | h :: rest =>
    if num > 0 then
      let r := rawhid_close rest (num - 1)
      (h :: r.1, r.2)
    else if h.openFlag then
      let r := hid_close h
      (r.1 :: rest, r.2)
    else (h :: rest, [])

/-- Little-endian, zero-extended reconstruction of a payload byte list:
the spec's description of a decoded short-item value. -/
def leValue : List Nat → Nat
  | [] => 0
  | b :: bs => b + 256 * leValue bs

/-- Concrete buffer for the C6 witness. -/
def c6bufA : Nat → Nat := fun i => [6, 1, 2].getD i 0

/-- A buffer agreeing with `c6bufA` strictly below 3 and differing above. -/
def c6bufB : Nat → Nat := fun i => if i < 3 then [6, 1, 2].getD i 0 else 99

/-- Strict lexicographic order on candidate identities (device index,
then interface index, then altsetting index). -/
def hlt (a b : Handle) : Prop :=
  a.1 < b.1 ∨ (a.1 = b.1 ∧ (a.2.1 < b.2.1 ∨ (a.2.1 = b.2.1 ∧ a.2.2 < b.2.2)))

/-- Registry invariant threaded through the discovery loops: the count
matches the number of entries, handles are pairwise distinct, and every
entry comes from a candidate strictly before `bnd`, with its handle set,
its `open` flag set and a non-zero IN endpoint. -/
def RegInv (bnd : Handle) (s : DState) : Prop :=
  s.entries.length = s.count ∧
  s.entries.Pairwise (fun a b => a.handle ≠ b.handle) ∧
  ∀ x ∈ s.entries, ∃ hd, x.handle = some hd ∧ hlt hd bnd ∧
    x.openFlag = true ∧ x.ep_in ≠ 0

/-- The interface list a device contributes candidates from. -/
def devIfaces (d : Device) : List InterfaceDesc :=
  match d.config with
  | none => []
  | some c => c.interfaces

/-- Largest altsetting count among a list of interfaces. -/
def maxAltsIfaces (l : List InterfaceDesc) : Nat :=
  l.foldr (fun ifc a => Nat.max ifc.altsettings.length a) 0

/-- Largest altsetting count among all interfaces of all enumerated
devices. -/
def maxAlts (env : Env) : Nat :=
  env.devices.foldr (fun d a => Nat.max (maxAltsIfaces (devIfaces d)) a) 0

/-! ## Concrete environments -/

/-- A fully qualifying altsetting: HID class 3, subclass 0, protocol 0,
an IN endpoint `0x81` and an OUT endpoint `0x02`, every external call
succeeding, and a report descriptor declaring usage page 1 (item `05 01`)
and usage 6 (item `09 06`), with one trailing pad byte so both items pass
the decoder's strict bounds check. -/
def altQ : AltSetting :=
  ⟨3, 0, 0, [0x81, 0x02], true, false, true, true, some [5, 1, 9, 6, 0], true⟩

/-- Like `altQ` but fetching an empty report descriptor (length 0). -/
def altE : AltSetting := { altQ with descriptor := some [] }

/-- A device exposing one interface with the given single altsetting. -/
def devOf (a : AltSetting) : Device := ⟨true, 0x16C0, 0x0480, some ⟨[⟨[a]⟩]⟩⟩

/-- One device whose single interface has two qualifying altsettings. -/
def envTwoAlts : Env := ⟨true, [⟨true, 0x16C0, 0x0480, some ⟨[⟨[altQ, altQ]⟩]⟩⟩]⟩

/-- Two devices: the first with a usage-declaring descriptor, the second
fetching an empty descriptor. -/
def envStale : Env := ⟨true, [devOf altQ, devOf altE]⟩

/-! ## Decoder lemmas -/

lemma byteAt_lt (buf : Nat → Nat) (i : Nat) : byteAt buf i < 256 :=
  Nat.mod_lt _ (by norm_num)

/-- Disjoint-or is addition: a value below `2 ^ k` or-ed with a left shift
by `k` is their sum. -/
lemma lor_shiftLeft_eq_add {a : Nat} (b k : Nat) (h : a < 2 ^ k) :
    a ||| (b <<< k) = a + 2 ^ k * b := by
  rw [Nat.add_comm]
  apply Nat.eq_of_testBit_eq
  intro i
  rw [Nat.testBit_mul_pow_two_add b h i]
  simp only [Nat.testBit_or, Nat.testBit_shiftLeft]
  by_cases hik : i < k
  · simp [hik, Nat.not_le.mpr hik]
  · have hk : k ≤ i := Nat.le_of_not_lt hik
    have ha : a.testBit i = false :=
      Nat.testBit_lt_two_pow
        (Nat.lt_of_lt_of_le h (Nat.pow_le_pow_right (by norm_num) hk))
    simp [hik, hk, ha]

/-- A successful decode strictly advances the cursor. -/
lemma hid_parse_item_some_lt {buf : Nat → Nat} {p e t v p' : Nat}
    (h : hid_parse_item buf p e = some (t, v, p')) : p < p' := by
  unfold hid_parse_item at h
  by_cases h1 : p ≥ e
  · rw [if_pos h1] at h; exact absurd h (by simp)
  · rw [if_neg h1] at h
    by_cases hfe : byteAt buf p = 0xFE
    · rw [if_pos hfe] at h
      by_cases hb : p + 5 ≥ e ∨ p + byteAt buf (p + 1) ≥ e
      · rw [if_pos hb] at h; exact absurd h (by simp)
      · rw [if_neg hb] at h
        simp only [Option.some.injEq, Prod.mk.injEq] at h
        omega
    · rw [if_neg hfe] at h
      simp only at h
      by_cases hb : p + table.getD (byteAt buf p % 4) 0 + 1 ≥ e
      · rw [if_pos hb] at h; exact absurd h (by simp)
      · rw [if_neg hb] at h
        simp only [Option.some.injEq, Prod.mk.injEq] at h
        omega

lemma table_getD_0 : table.getD 0 0 = 0 := rfl

lemma table_getD_1 : table.getD 1 0 = 1 := rfl

lemma table_getD_2 : table.getD 2 0 = 2 := rfl

lemma table_getD_3 : table.getD 3 0 = 4 := rfl

/-- Claim C8: for every well-formed short item whose first byte `b` is not
`0xFE` and that passes the bounds check, `hid_parse_item` returns
`tag = b &&& 0xFC` and the little-endian, zero-extended reconstruction of
the `table[b &&& 3]` payload bytes, and advances the cursor by exactly
`1 + table[b &&& 3]`. -/
theorem c8_short_item_decode (buf : Nat → Nat) (p e : Nat)
    (hfe : byteAt buf p ≠ 0xFE)
    (hb : p + table.getD (byteAt buf p % 4) 0 + 1 < e) :
    hid_parse_item buf p e =
      some (byteAt buf p &&& 0xFC,
        leValue ((List.range (table.getD (byteAt buf p % 4) 0)).map
          (fun t => byteAt buf (p + 1 + t))),
        p + table.getD (byteAt buf p % 4) 0 + 1) := by
  have hp : ¬ p ≥ e := by omega
  have hm : byteAt buf p % 4 = 0 ∨ byteAt buf p % 4 = 1 ∨
      byteAt buf p % 4 = 2 ∨ byteAt buf p % 4 = 3 := by omega
  unfold hid_parse_item
  rw [if_neg hp, if_neg hfe]
  simp only []
  rcases hm with h4 | h4 | h4 | h4 <;>
      simp only [h4, table_getD_0, table_getD_1, table_getD_2, table_getD_3] at hb ⊢ <;>
      rw [if_neg (by omega)] <;>
      norm_num
  · simp [leValue]
  · rw [show List.range 1 = [0] from rfl]
    simp [leValue]
  · rw [show List.range 2 = [0, 1] from rfl]
    simp only [List.map_cons, List.map_nil, leValue]
    rw [lor_shiftLeft_eq_add _ 8 (byteAt_lt buf (p + 1))]
    norm_num
  · rw [show List.range 4 = [0, 1, 2, 3] from rfl]
    simp only [List.map_cons, List.map_nil, leValue]
    have h1 := byteAt_lt buf (p + 1)
    have h2 := byteAt_lt buf (p + 2)
    have h3 := byteAt_lt buf (p + 3)
    rw [lor_shiftLeft_eq_add _ 8 h1,
        lor_shiftLeft_eq_add _ 16 (by norm_num; omega),
        lor_shiftLeft_eq_add _ 24 (by norm_num; omega)]
    rw [(by omega : p + 1 + 1 = p + 2), (by omega : p + 1 + 2 = p + 3),
        (by omega : p + 1 + 3 = p + 4)]
    norm_num
    omega

/-- Claim C8 witness: decode of the concrete short item `06 34 12`
(size class 2) at cursor 0 with bound 4. -/
theorem c8_short_item_decode_witness :
    hid_parse_item (fun i => [6, 52, 18, 0].getD i 0) 0 4 = some (4, 4660, 3) := by
  rw [c8_short_item_decode (fun i => [6, 52, 18, 0].getD i 0) 0 4 (by decide) (by decide)]
  decide

/-- Claim C3 counterexample: the long item `FE 00 07` (length byte 0) with
bound 7 decodes to cursor position 6, not 5 + lengthByte = 5: the code sets
`len = p[1] + 5` and then advances by `len + 1`. -/
theorem c3_counterexample :
    hid_parse_item (fun i => [254, 0, 7, 0, 0, 0, 0].getD i 0) 0 7 = some (7, 0, 6) ∧
    hid_parse_item (fun i => [254, 0, 7, 0, 0, 0, 0].getD i 0) 0 7 ≠ some (7, 0, 5) := by
  decide

/-- Claim C3 (amended): for every long item (first byte `0xFE`) that
passes the bounds check, `hid_parse_item` returns `tag = byte[2]` and
`value = 0` and advances the cursor by exactly `6 + byte[1]` bytes (not
`5 + byte[1]`: the code computes `len = byte[1] + 5` and advances by
`len + 1`). -/
theorem c3_long_item_amended (buf : Nat → Nat) (p e : Nat)
    (hfe : byteAt buf p = 0xFE) (h5 : p + 5 < e)
    (hl : p + byteAt buf (p + 1) < e) :
    hid_parse_item buf p e =
      some (byteAt buf (p + 2), 0, p + byteAt buf (p + 1) + 6) := by
  unfold hid_parse_item
  rw [if_neg (by omega : ¬ p ≥ e), if_pos hfe,
    if_neg (by push_neg; exact ⟨h5, hl⟩ :
      ¬ (p + 5 ≥ e ∨ p + byteAt buf (p + 1) ≥ e)),
    (by omega : p + (byteAt buf (p + 1) + 5) + 1 = p + byteAt buf (p + 1) + 6)]

/-- Claim C3 (amended) witness: the long item `FE 01 09` with one payload
byte and bound 8 decodes to `(tag 9, value 0)` at cursor 7. -/
theorem c3_long_item_amended_witness :
    hid_parse_item (fun i => [254, 1, 9, 0, 0, 0, 0, 0].getD i 0) 0 8 =
      some (9, 0, 7) := by
  rw [c3_long_item_amended (fun i => [254, 1, 9, 0, 0, 0, 0, 0].getD i 0) 0 8
    (by decide) (by decide) (by decide)]
  decide

/-- Claim C6: decoding at or past the end bound fails; a short item whose
trailing bytes would not stay strictly inside the bound fails; a long item
whose checked positions would not stay strictly inside the bound fails;
and the decode result depends only on the bytes at positions in `[p, e)`,
i.e. no byte at or beyond the bound is ever read. -/
theorem c6_decoder_bounds (buf : Nat → Nat) (p e : Nat) :
    (p ≥ e → hid_parse_item buf p e = none) ∧
    (byteAt buf p = 0xFE → p + 5 ≥ e ∨ p + byteAt buf (p + 1) ≥ e →
      hid_parse_item buf p e = none) ∧
    (byteAt buf p ≠ 0xFE → p + table.getD (byteAt buf p % 4) 0 + 1 ≥ e →
      hid_parse_item buf p e = none) ∧
    (∀ buf' : Nat → Nat, (∀ i, p ≤ i → i < e → buf i % 256 = buf' i % 256) →
      hid_parse_item buf p e = hid_parse_item buf' p e) := by
  refine ⟨?_, ?_, ?_, ?_⟩
  · intro h1
    unfold hid_parse_item
    rw [if_pos h1]
  · intro hfe hb
    unfold hid_parse_item
    by_cases h1 : p ≥ e
    · rw [if_pos h1]
    · rw [if_neg h1, if_pos hfe, if_pos hb]
  · intro hfe hb
    unfold hid_parse_item
    by_cases h1 : p ≥ e
    · rw [if_pos h1]
    · rw [if_neg h1, if_neg hfe]
      simp only []
      rw [if_pos hb]
  · intro buf' hag
    by_cases h1 : p ≥ e
    · unfold hid_parse_item
      rw [if_pos h1, if_pos h1]
    · have hp : p < e := by omega
      have h0 : byteAt buf p = byteAt buf' p := hag p le_rfl hp
      unfold hid_parse_item
      rw [if_neg h1, if_neg h1]
      by_cases hfe : byteAt buf p = 0xFE
      · have hfe' : byteAt buf' p = 0xFE := h0.symm.trans hfe
        rw [if_pos hfe, if_pos hfe']
        by_cases h5 : p + 5 ≥ e
        · rw [if_pos (Or.inl h5), if_pos (Or.inl h5)]
        · have e1 : byteAt buf (p + 1) = byteAt buf' (p + 1) :=
            hag (p + 1) (by omega) (by omega)
          have e2 : byteAt buf (p + 2) = byteAt buf' (p + 2) :=
            hag (p + 2) (by omega) (by omega)
          rw [e1, e2]
      · have hfe' : ¬ byteAt buf' p = 0xFE := fun h => hfe (h0.trans h)
        rw [if_neg hfe, if_neg hfe']
        simp only []
        rw [h0]
        by_cases hg : p + table.getD (byteAt buf' p % 4) 0 + 1 ≥ e
        · rw [if_pos hg, if_pos hg]
        · rw [if_neg hg, if_neg hg]
          have hm : byteAt buf' p % 4 = 0 ∨ byteAt buf' p % 4 = 1 ∨
              byteAt buf' p % 4 = 2 ∨ byteAt buf' p % 4 = 3 := by omega
          rcases hm with hm | hm | hm | hm <;>
              simp only [hm, table_getD_0, table_getD_1, table_getD_2,
                table_getD_3] at hg ⊢ <;>
              norm_num
          · exact hag (p + 1) (by omega) (by omega)
          · have b1 : byteAt buf (p + 1) = byteAt buf' (p + 1) :=
              hag (p + 1) (by omega) (by omega)
            have b2 : byteAt buf (p + 2) = byteAt buf' (p + 2) :=
              hag (p + 2) (by omega) (by omega)
            rw [b1, b2]
          · have b1 : byteAt buf (p + 1) = byteAt buf' (p + 1) :=
              hag (p + 1) (by omega) (by omega)
            have b2 : byteAt buf (p + 2) = byteAt buf' (p + 2) :=
              hag (p + 2) (by omega) (by omega)
            have b3 : byteAt buf (p + 3) = byteAt buf' (p + 3) :=
              hag (p + 3) (by omega) (by omega)
            have b4 : byteAt buf (p + 4) = byteAt buf' (p + 4) :=
              hag (p + 4) (by omega) (by omega)
            rw [b1, b2, b3, b4]

/-- Claim C6 witness: each conjunct applied at concrete inputs — decode at
`p = 5 ≥ e = 3` fails, a bounds-violating long item fails, a
bounds-violating short item fails, and buffers agreeing below the bound
decode identically. -/
theorem c6_decoder_bounds_witness :
    hid_parse_item c6bufA 5 3 = none ∧
    hid_parse_item (fun i => [254, 9, 7, 0].getD i 0) 0 4 = none ∧
    hid_parse_item (fun i => [6, 1, 2].getD i 0) 0 2 = none ∧
    hid_parse_item c6bufA 0 3 = hid_parse_item c6bufB 0 3 := by
  refine ⟨(c6_decoder_bounds c6bufA 5 3).1 (by decide),
    (c6_decoder_bounds (fun i => [254, 9, 7, 0].getD i 0) 0 4).2.1
      (by decide) (by decide),
    (c6_decoder_bounds (fun i => [6, 1, 2].getD i 0) 0 2).2.2.1
      (by decide) (by decide),
    (c6_decoder_bounds c6bufA 0 3).2.2.2 c6bufB ?_⟩
  intro i _ hi
  unfold c6bufA c6bufB
  rw [if_pos hi]

/-! ## Structure of candidate processing -/

/-- Candidate processing either leaves the registry untouched or appends
exactly one entry, whose handle is this candidate's, whose `open` flag is
set and whose IN endpoint is non-zero; the count grows with the appended
entries, events are only appended, and an entry is appended only when the
candidate's descriptor was fetched and the running parsed values after
scanning it are non-zero and match the filters. -/
lemma procAlt_spec (up us : Int) (i j k : Nat) (alt : AltSetting) (s : DState) :
    ∃ app ev,
      (procAlt up us i j k alt s).entries = s.entries ++ app ∧
      (procAlt up us i j k alt s).count = s.count + app.length ∧
      (procAlt up us i j k alt s).evs = s.evs ++ ev ∧
      app.length ≤ 1 ∧
      (∀ x ∈ app, x.handle = some (i, j, k) ∧ x.openFlag = true ∧ x.ep_in ≠ 0) ∧
      (app ≠ [] → ∃ bytes, alt.descriptor = some bytes ∧
        (candScan bytes s.pg s.u).1 ≠ 0 ∧ (candScan bytes s.pg s.u).2 ≠ 0 ∧
        (up > 0 → ((candScan bytes s.pg s.u).1 : Int) = up) ∧
        (us > 0 → ((candScan bytes s.pg s.u).2 : Int) = us)) := by
  unfold procAlt
  by_cases h1 : alt.bInterfaceClass ≠ 3
  · rw [if_pos h1]
    exact ⟨[], [], by simp, by simp, by simp, by simp, by simp, by simp⟩
  rw [if_neg h1]
  by_cases h2 : alt.bInterfaceSubClass ≠ 0
  · rw [if_pos h2]
    exact ⟨[], [], by simp, by simp, by simp, by simp, by simp, by simp⟩
  rw [if_neg h2]
  by_cases h3 : alt.bInterfaceProtocol ≠ 0
  · rw [if_pos h3]
    exact ⟨[], [], by simp, by simp, by simp, by simp, by simp, by simp⟩
  rw [if_neg h3]
  by_cases h4 : (scanEndpoints alt.endpoints).1 = 0
  · rw [if_pos h4]
    exact ⟨[], [], by simp, by simp, by simp, by simp, by simp, by simp⟩
  rw [if_neg h4]
  by_cases h5 : ¬ alt.openOk
  · rw [if_pos h5]
    exact ⟨[], [], by simp, by simp, by simp, by simp, by simp, by simp⟩
  rw [if_neg h5]
  by_cases h6 : alt.kernelDriverActive ∧ ¬ alt.detachOk
  · rw [if_pos h6]
    exact ⟨[], [Ev.openDev (i, j, k), Ev.closeDev (i, j, k)],
      by simp, by simp, by simp, by simp, by simp, by simp⟩
  rw [if_neg h6]
  by_cases h7 : ¬ alt.claimOk
  · rw [if_pos h7]
    exact ⟨[], [Ev.openDev (i, j, k), Ev.closeDev (i, j, k)],
      by simp, by simp, by simp, by simp, by simp, by simp⟩
  rw [if_neg h7]
  rcases hdesc : alt.descriptor with _ | bytes
  · dsimp only
    exact ⟨[], [Ev.openDev (i, j, k), Ev.releaseI (i, j, k) j, Ev.closeDev (i, j, k)],
      by simp, by simp, by simp, by simp, by simp, by simp⟩
  · dsimp only
    by_cases hrej : (candScan bytes s.pg s.u).1 = 0 ∨ (candScan bytes s.pg s.u).2 = 0 ∨
        (up > 0 ∧ ((candScan bytes s.pg s.u).1 : Int) ≠ up) ∨
        (us > 0 ∧ ((candScan bytes s.pg s.u).2 : Int) ≠ us)
    · rw [if_pos hrej]
      exact ⟨[], [Ev.openDev (i, j, k), Ev.releaseI (i, j, k) j, Ev.closeDev (i, j, k)],
        by simp, by simp, by simp, by simp, by simp, by simp⟩
    rw [if_neg hrej]
    by_cases h8 : ¬ alt.allocOk
    · rw [if_pos h8]
      exact ⟨[], [Ev.openDev (i, j, k), Ev.releaseI (i, j, k) j, Ev.closeDev (i, j, k)],
        by simp, by simp, by simp, by simp, by simp, by simp⟩
    rw [if_neg h8]
    push_neg at hrej
    refine ⟨[⟨some (i, j, k), true, j,
        (scanEndpoints alt.endpoints).1, (scanEndpoints alt.endpoints).2⟩],
      [Ev.openDev (i, j, k), Ev.record (i, j, k)],
      by simp, by simp, by simp, by simp, ?_, ?_⟩
    · intro x hx
      simp only [List.mem_singleton] at hx
      subst hx
      exact ⟨rfl, rfl, h4⟩
    · intro _
      exact ⟨bytes, rfl, hrej.1, hrej.2.1, hrej.2.2.1, hrej.2.2.2⟩

lemma hlt_mono {hd : Handle} {i j k i' j' k' : Nat} (h : hlt hd (i, j, k))
    (hi : i ≤ i') (hj : i' = i → j ≤ j') (hk : i' = i → j' = j → k ≤ k') :
    hlt hd (i', j', k') := by
  obtain ⟨a, b, c⟩ := hd
  simp only [hlt] at h ⊢
  omega

lemma hlt_ne {hd b : Handle} (h : hlt hd b) : hd ≠ b := by
  obtain ⟨a1, a2, a3⟩ := hd
  obtain ⟨b1, b2, b3⟩ := b
  simp only [hlt] at h
  simp only [ne_eq, Prod.mk.injEq, not_and]
  omega

lemma regInv_mono {b1 b2 : Handle} {s : DState}
    (h : ∀ hd, hlt hd b1 → hlt hd b2) : RegInv b1 s → RegInv b2 s := by
  rintro ⟨hl, hp, hm⟩
  refine ⟨hl, hp, fun x hx => ?_⟩
  obtain ⟨hd, e1, e2, e3, e4⟩ := hm x hx
  exact ⟨hd, e1, h hd e2, e3, e4⟩

lemma regInv_procAlt (up us : Int) (i j k : Nat) (alt : AltSetting) (s : DState)
    (h : RegInv (i, j, k) s) :
    RegInv (i, j, k + 1) (procAlt up us i j k alt s) := by
  obtain ⟨app, ev, hE, hC, hEv, hLen, hMem, _⟩ := procAlt_spec up us i j k alt s
  obtain ⟨hl, hp, hm⟩ := h
  have hweak : ∀ hd, hlt hd (i, j, k) → hlt hd (i, j, k + 1) := fun hd hh =>
    hlt_mono hh le_rfl (fun _ => le_rfl) (fun _ _ => by omega)
  rcases app with _ | ⟨x, t⟩
  · refine ⟨?_, ?_, ?_⟩
    · rw [hE, hC]
      simpa using hl
    · rw [hE, List.append_nil]
      exact hp
    · rw [hE, List.append_nil]
      intro x hx
      obtain ⟨hd, e1, e2, e3, e4⟩ := hm x hx
      exact ⟨hd, e1, hweak hd e2, e3, e4⟩
  · rcases t with _ | ⟨y, t'⟩
    · obtain ⟨hx1, hx2, hx3⟩ := hMem x (List.mem_singleton_self x)
      refine ⟨?_, ?_, ?_⟩
      · rw [hE, hC]
        simp [hl]
      · rw [hE]
        rw [List.pairwise_append]
        refine ⟨hp, by simp, ?_⟩
        intro a ha b hb
        simp only [List.mem_singleton] at hb
        subst hb
        obtain ⟨hd, e1, e2, _, _⟩ := hm a ha
        rw [e1, hx1]
        intro hcon
        exact hlt_ne e2 (Option.some.inj hcon)
      · rw [hE]
        intro z hz
        rcases List.mem_append.1 hz with hz | hz
        · obtain ⟨hd, e1, e2, e3, e4⟩ := hm z hz
          exact ⟨hd, e1, hweak hd e2, e3, e4⟩
        · simp only [List.mem_singleton] at hz
          subst hz
          refine ⟨(i, j, k), hx1, ?_, hx2, hx3⟩
          simp [hlt]
    · simp at hLen

lemma regInv_procAlts (up us : Int) (i j : Nat) :
    ∀ (alts : List AltSetting) (k : Nat) (s : DState),
      RegInv (i, j, k) s →
      RegInv (i, j, k + alts.length) (procAlts up us i j k alts s)
  | [], k, s, h => by simpa [procAlts] using h
  | alt :: rest, k, s, h => by
    unfold procAlts
    have h1 := regInv_procAlt up us i j k alt s h
    have h2 := regInv_procAlts up us i j rest (k + 1) _ h1
    have heq : k + 1 + rest.length = k + (alt :: rest).length := by
      simp [List.length_cons]
      omega
    rw [heq] at h2
    exact h2

lemma regInv_procIfaces (mx up us : Int) (i : Nat) :
    ∀ (l : List InterfaceDesc) (j : Nat) (s : DState),
      RegInv (i, j, 0) s →
      RegInv (i, j + l.length, 0) (procIfaces mx up us i j l s)
  | [], j, s, h => by simpa [procIfaces] using h
  | ifc :: rest, j, s, h => by
    unfold procIfaces
    by_cases hc : (s.count : Int) < mx
    · rw [if_pos hc]
      have h1 := regInv_procAlts up us i j ifc.altsettings 0 s h
      have h2 : RegInv (i, j + 1, 0) (procAlts up us i j 0 ifc.altsettings s) :=
        regInv_mono (fun hd hh =>
          hlt_mono hh le_rfl (fun _ => by omega) (fun _ h' => by omega)) h1
      have h3 := regInv_procIfaces mx up us i rest (j + 1) _ h2
      have heq : j + 1 + rest.length = j + (ifc :: rest).length := by
        simp [List.length_cons]
        omega
      rw [heq] at h3
      exact h3
    · rw [if_neg hc]
      exact regInv_mono (fun hd hh =>
        hlt_mono hh le_rfl (fun _ => by omega) (fun _ h' => by omega)) h

lemma regInv_procDevice (mx v pd up us : Int) (i : Nat) (dev : Device) (s : DState)
    (h : RegInv (i, 0, 0) s) :
    RegInv (i + 1, 0, 0) (procDevice mx v pd up us i dev s) := by
  have hweak : ∀ (j k : Nat), ∀ hd, hlt hd (i, j, k) → hlt hd (i + 1, 0, 0) := by
    intro j k hd hh
    exact hlt_mono hh (by omega) (fun h' => by omega) (fun h' _ => by omega)
  unfold procDevice
  by_cases h1 : ¬ dev.descOk
  · rw [if_pos h1]
    exact regInv_mono (hweak 0 0) h
  rw [if_neg h1]
  by_cases h2 : v > 0 ∧ (dev.idVendor : Int) ≠ v
  · rw [if_pos h2]
    exact regInv_mono (hweak 0 0) h
  rw [if_neg h2]
  by_cases h3 : pd > 0 ∧ (dev.idProduct : Int) ≠ pd
  · rw [if_pos h3]
    exact regInv_mono (hweak 0 0) h
  rw [if_neg h3]
  rcases hconf : dev.config with _ | conf
  · dsimp only
    exact regInv_mono (hweak 0 0) h
  · dsimp only
    exact regInv_mono (hweak (0 + conf.interfaces.length) 0)
      (regInv_procIfaces mx up us i conf.interfaces 0 s h)

lemma regInv_procDevices (mx v pd up us : Int) :
    ∀ (devs : List Device) (i : Nat) (s : DState),
      RegInv (i, 0, 0) s →
      RegInv (i + devs.length, 0, 0) (procDevices mx v pd up us i devs s)
  | [], i, s, h => by simpa [procDevices] using h
  | d :: rest, i, s, h => by
    unfold procDevices
    by_cases hc : (s.count : Int) < mx
    · rw [if_pos hc]
      have h2 := regInv_procDevices mx v pd up us rest (i + 1) _
        (regInv_procDevice mx v pd up us i d s h)
      have heq : i + 1 + rest.length = i + (d :: rest).length := by
        simp [List.length_cons]
        omega
      rw [heq] at h2
      exact h2
    · rw [if_neg hc]
      exact regInv_mono (fun hd hh =>
        hlt_mono hh (by omega) (fun h' => by omega) (fun h' _ => by omega)) h

/-! ## Count bounds -/

lemma le_maxAltsIfaces : ∀ {l : List InterfaceDesc} {ifc : InterfaceDesc},
    ifc ∈ l → ifc.altsettings.length ≤ maxAltsIfaces l
  | [], _, h => by simp at h
  | a :: rest, ifc, h => by
    rcases List.mem_cons.1 h with h | h
    · subst h
      exact Nat.le_max_left _ _
    · exact Nat.le_trans (le_maxAltsIfaces h) (Nat.le_max_right _ _)

lemma le_maxAlts_foldr : ∀ {devs : List Device} {d : Device}, d ∈ devs →
    maxAltsIfaces (devIfaces d) ≤
      devs.foldr (fun x a => Nat.max (maxAltsIfaces (devIfaces x)) a) 0
  | [], _, h => by simp at h
  | a :: rest, d, h => by
    rcases List.mem_cons.1 h with h | h
    · subst h
      exact Nat.le_max_left _ _
    · exact Nat.le_trans (le_maxAlts_foldr h) (Nat.le_max_right _ _)

lemma maxAltsIfaces_le_maxAlts {env : Env} {d : Device} (h : d ∈ env.devices) :
    maxAltsIfaces (devIfaces d) ≤ maxAlts env :=
  le_maxAlts_foldr h

lemma procAlt_count_le (up us : Int) (i j k : Nat) (alt : AltSetting) (s : DState) :
    (procAlt up us i j k alt s).count ≤ s.count + 1 := by
  obtain ⟨app, ev, _, hC, _, hLen, _, _⟩ := procAlt_spec up us i j k alt s
  omega

lemma procAlts_count_le (up us : Int) (i j : Nat) :
    ∀ (alts : List AltSetting) (k : Nat) (s : DState),
      (procAlts up us i j k alts s).count ≤ s.count + alts.length
  | [], k, s => by simp [procAlts]
  | alt :: rest, k, s => by
    unfold procAlts
    have h1 := procAlt_count_le up us i j k alt s
    have h2 := procAlts_count_le up us i j rest (k + 1) (procAlt up us i j k alt s)
    simp only [List.length_cons]
    omega

lemma procIfaces_count_bound (mx up us : Int) (i : Nat) (A : Nat) :
    ∀ (l : List InterfaceDesc) (j : Nat) (s : DState),
      (∀ ifc ∈ l, ifc.altsettings.length ≤ A) →
      (s.count : Int) ≤ mx - 1 + (A : Int) →
      ((procIfaces mx up us i j l s).count : Int) ≤ mx - 1 + (A : Int)
  | [], j, s, _, h => by simpa [procIfaces] using h
  | ifc :: rest, j, s, hA, h => by
    unfold procIfaces
    by_cases hc : (s.count : Int) < mx
    · rw [if_pos hc]
      apply procIfaces_count_bound mx up us i A rest (j + 1) _
        (fun x hx => hA x (List.mem_cons_of_mem _ hx))
      have h1 := procAlts_count_le up us i j ifc.altsettings 0 s
      have h2 := hA ifc (List.mem_cons_self _ _)
      omega
    · rw [if_neg hc]
      exact h

lemma procDevice_count_bound (mx v pd up us : Int) (i : Nat) (A : Nat)
    (dev : Device) (s : DState)
    (hA : ∀ ifc ∈ devIfaces dev, ifc.altsettings.length ≤ A)
    (h : (s.count : Int) ≤ mx - 1 + (A : Int)) :
    ((procDevice mx v pd up us i dev s).count : Int) ≤ mx - 1 + (A : Int) := by
  unfold procDevice
  by_cases h1 : ¬ dev.descOk
  · rw [if_pos h1]; exact h
  rw [if_neg h1]
  by_cases h2 : v > 0 ∧ (dev.idVendor : Int) ≠ v
  · rw [if_pos h2]; exact h
  rw [if_neg h2]
  by_cases h3 : pd > 0 ∧ (dev.idProduct : Int) ≠ pd
  · rw [if_pos h3]; exact h
  rw [if_neg h3]
  rcases hconf : dev.config with _ | conf
  · dsimp only; exact h
  · dsimp only
    have hA' : ∀ ifc ∈ conf.interfaces, ifc.altsettings.length ≤ A := by
      intro ifc hm
      apply hA
      unfold devIfaces
      rw [hconf]
      exact hm
    exact procIfaces_count_bound mx up us i A conf.interfaces 0 s hA' h

lemma procDevices_count_bound (mx v pd up us : Int) (A : Nat) :
    ∀ (devs : List Device) (i : Nat) (s : DState),
      (∀ d ∈ devs, ∀ ifc ∈ devIfaces d, ifc.altsettings.length ≤ A) →
      (s.count : Int) ≤ mx - 1 + (A : Int) →
      ((procDevices mx v pd up us i devs s).count : Int) ≤ mx - 1 + (A : Int)
  | [], i, s, _, h => by simpa [procDevices] using h
  | d :: rest, i, s, hA, h => by
    unfold procDevices
    by_cases hc : (s.count : Int) < mx
    · rw [if_pos hc]
      exact procDevices_count_bound mx v pd up us A rest (i + 1) _
        (fun x hx => hA x (List.mem_cons_of_mem _ hx))
        (procDevice_count_bound mx v pd up us i A d s
          (hA d (List.mem_cons_self _ _)) h)
    · rw [if_neg hc]
      exact h

/-! ## Claims C1, C2, C5 -/

/-- Claim C1 counterexample: with `maxCount = 1` and a single enumerated
device whose one interface carries two qualifying alternate settings,
`rawhid_open` registers two entries and returns 2 — the altsetting loop
has no `count < max` guard, so the claim's bound fails. -/
theorem c1_counterexample :
    (rawhid_open [] envTwoAlts 1 (-1) (-1) (-1) (-1)).2.1 = 2 ∧
    ¬ (rawhid_open [] envTwoAlts 1 (-1) (-1) (-1) (-1)).2.1 ≤ 1 ∧
    (rawhid_open [] envTwoAlts 1 (-1) (-1) (-1) (-1)).1.length = 2 := by
  decide

/-- Claim C1 (amended): the `count < max` guard is enforced at device and
interface granularity but not per alternate setting, so for `maxCount ≥ 1`
a discovery pass registers and returns at most
`maxCount - 1 + (largest altsetting count of any enumerated interface)`
entries. -/
theorem c1_amended_count_bound (st : List Hid) (env : Env) (mx v pd up us : Int)
    (hmx : 1 ≤ mx) :
    (rawhid_open st env mx v pd up us).2.1 ≤ mx - 1 + (maxAlts env : Int) ∧
    ((rawhid_open st env mx v pd up us).1.length : Int) ≤
      mx - 1 + (maxAlts env : Int) := by
  unfold rawhid_open
  dsimp only
  rw [if_neg (by omega : ¬ mx < 1)]
  by_cases hl : env.listOk
  · rw [if_neg (by simpa using hl)]
    dsimp only
    have h0 : RegInv (0, 0, 0) ⟨0, 0, 0, [], []⟩ :=
      ⟨rfl, List.Pairwise.nil, by intro x hx; simp at hx⟩
    have hA : ∀ d ∈ env.devices, ∀ ifc ∈ devIfaces d,
        ifc.altsettings.length ≤ maxAlts env := fun d hd ifc hi =>
      Nat.le_trans (le_maxAltsIfaces hi) (maxAltsIfaces_le_maxAlts hd)
    have hcnt := procDevices_count_bound mx v pd up us (maxAlts env)
      env.devices 0 ⟨0, 0, 0, [], []⟩ hA (by simp; omega)
    have hlen :=
      (regInv_procDevices mx v pd up us env.devices 0 ⟨0, 0, 0, [], []⟩ h0).1
    refine ⟨hcnt, ?_⟩
    rw [hlen]
    exact hcnt
  · rw [if_pos hl]
    constructor
    · simp
      omega
    · simp
      omega

/-- Claim C1 (amended) witness: on `envTwoAlts` (largest altsetting count
2) with `maxCount = 1`, the bound `1 - 1 + 2` holds of the returned 2. -/
theorem c1_amended_count_bound_witness :
    (rawhid_open [] envTwoAlts 1 (-1) (-1) (-1) (-1)).2.1 ≤
      1 - 1 + (maxAlts envTwoAlts : Int) ∧
    ((rawhid_open [] envTwoAlts 1 (-1) (-1) (-1) (-1)).1.length : Int) ≤
      1 - 1 + (maxAlts envTwoAlts : Int) :=
  c1_amended_count_bound [] envTwoAlts 1 (-1) (-1) (-1) (-1) (by norm_num)

/-- Claim C2 counterexample: in `envStale` the second candidate (handle
`(1,0,0)`) fetches an empty descriptor — whose own scan from a zero start
yields `(0, 0)` — yet it is registered with wildcard filters, because the
function-scope `parsed_usage_page`/`parsed_usage` still hold the first
candidate's values. -/
theorem c2_counterexample :
    (rawhid_open [] envStale 2 (-1) (-1) (-1) (-1)).1.map Hid.handle =
      [some (0, 0, 0), some (1, 0, 0)] ∧
    altE.descriptor = some [] ∧
    candScan [] 0 0 = (0, 0) := by
  decide

/-- Claim C2 (amended): the values compared against the usage filters are
the running `parsed_usage_page`/`parsed_usage` variables — initialized to
zero once per `rawhid_open` call and threaded across candidates, each
decoded tag-4/tag-8 item overwriting them — after scanning the candidate's
own fetched descriptor from the inherited values; a candidate is
registered only if both running values are then non-zero and match every
non-wildcard filter (so a candidate whose descriptor leaves a zero value
is rejected only when no earlier candidate already set it). -/
theorem c2_amended_running_values (up us : Int) (i j k : Nat) (alt : AltSetting)
    (s : DState) (hch : (procAlt up us i j k alt s).entries ≠ s.entries) :
    ∃ bytes, alt.descriptor = some bytes ∧
      (candScan bytes s.pg s.u).1 ≠ 0 ∧ (candScan bytes s.pg s.u).2 ≠ 0 ∧
      (up > 0 → ((candScan bytes s.pg s.u).1 : Int) = up) ∧
      (us > 0 → ((candScan bytes s.pg s.u).2 : Int) = us) := by
  obtain ⟨app, ev, hE, _, _, _, _, hF⟩ := procAlt_spec up us i j k alt s
  rcases app with _ | ⟨x, t⟩
  · rw [hE, List.append_nil] at hch
    exact absurd rfl hch
  · exact hF (by simp)

/-- Claim C2 (amended) witness: the first candidate of a call (running
values zero) is registered, so its own descriptor must yield non-zero
usage page and usage. -/
theorem c2_amended_running_values_witness :
    ∃ bytes, altQ.descriptor = some bytes ∧
      (candScan bytes 0 0).1 ≠ 0 ∧ (candScan bytes 0 0).2 ≠ 0 ∧
      ((-1 : Int) > 0 → ((candScan bytes 0 0).1 : Int) = -1) ∧
      ((-1 : Int) > 0 → ((candScan bytes 0 0).2 : Int) = -1) :=
  c2_amended_running_values (-1) (-1) 0 0 0 altQ ⟨0, 0, 0, [], []⟩ (by decide)

/-- Claim C5 counterexample: with two qualifying altsettings on the same
interface (and the environment granting both claims), one discovery pass
leaves two registry entries for the same claimed interface 0 of the same
device. -/
theorem c5_counterexample :
    (rawhid_open [] envTwoAlts 2 (-1) (-1) (-1) (-1)).1.map Hid.handle =
      [some (0, 0, 0), some (0, 0, 1)] ∧
    (rawhid_open [] envTwoAlts 2 (-1) (-1) (-1) (-1)).1.map Hid.iface = [0, 0] := by
  decide

/-- Claim C5 (amended): after a discovery pass the registry holds at most
one entry per successfully claimed candidate (device, interface,
altsetting) — entry handles are pairwise distinct and every entry owns a
handle, has its `open` flag set and a non-zero IN endpoint — and the
returned count equals the number of registered entries, so rejected
candidates leave no entry. -/
theorem c5_amended_registry (st : List Hid) (env : Env) (mx v pd up us : Int) :
    (rawhid_open st env mx v pd up us).1.Pairwise
      (fun a b => a.handle ≠ b.handle) ∧
    (∀ x ∈ (rawhid_open st env mx v pd up us).1,
      (∃ hd, x.handle = some hd) ∧ x.openFlag = true ∧ x.ep_in ≠ 0) ∧
    (rawhid_open st env mx v pd up us).2.1 =
      ((rawhid_open st env mx v pd up us).1.length : Int) := by
  unfold rawhid_open
  dsimp only
  by_cases hmx : mx < 1
  · rw [if_pos hmx]
    exact ⟨List.Pairwise.nil, by simp, by simp⟩
  rw [if_neg hmx]
  by_cases hl : env.listOk
  · rw [if_neg (by simpa using hl)]
    dsimp only
    have h0 : RegInv (0, 0, 0) ⟨0, 0, 0, [], []⟩ :=
      ⟨rfl, List.Pairwise.nil, by intro x hx; simp at hx⟩
    obtain ⟨hlen, hpw, hmem⟩ :=
      regInv_procDevices mx v pd up us env.devices 0 ⟨0, 0, 0, [], []⟩ h0
    refine ⟨hpw, ?_, ?_⟩
    · intro x hx
      obtain ⟨hd, e1, _, e3, e4⟩ := hmem x hx
      exact ⟨⟨hd, e1⟩, e3, e4⟩
    · exact_mod_cast hlen.symm
  · rw [if_pos hl]
    exact ⟨List.Pairwise.nil, by simp, by simp⟩

/-- Claim C5 (amended) witness: the invariant evaluated on the concrete
two-device environment. -/
theorem c5_amended_registry_witness :
    (rawhid_open [] envStale 2 (-1) (-1) (-1) (-1)).1.Pairwise
      (fun a b => a.handle ≠ b.handle) :=
  (c5_amended_registry [] envStale 2 (-1) (-1) (-1) (-1)).1

/-! ## Claims C7, C10, C9, C4 -/

/-- The teardown trace consists only of interface releases and device
closes. -/
lemma free_all_hid_evs_shape (st : List Hid) :
    ∀ e ∈ free_all_hid_evs st,
      (∃ hd n, e = Ev.releaseI hd n) ∨ (∃ hd, e = Ev.closeDev hd) := by
  intro e he
  obtain ⟨a, _, hmem⟩ := List.mem_flatMap.1 he
  unfold hid_close at hmem
  rcases hh : a.handle with _ | hd
  · rw [hh] at hmem
    simp at hmem
  · rw [hh] at hmem
    simp only [List.mem_cons, List.not_mem_nil, or_false] at hmem
    rcases hmem with h | h
    · exact Or.inl ⟨hd, a.iface, h⟩
    · exact Or.inr ⟨hd, h⟩

/-- Every registry entry with a handle has its release and close events in
the teardown trace. -/
lemma mem_free_all_of_handle (st : List Hid) (x : Hid) (hd : Handle)
    (hx : x ∈ st) (hh : x.handle = some hd) :
    Ev.releaseI hd x.iface ∈ free_all_hid_evs st ∧
    Ev.closeDev hd ∈ free_all_hid_evs st := by
  unfold free_all_hid_evs
  constructor <;>
    (apply List.mem_flatMap.2
     refine ⟨x, hx, ?_⟩
     unfold hid_close
     rw [hh]
     simp)

/-- Every entry a discovery pass registers carries a handle. -/
lemma rawhid_open_handle_set (st : List Hid) (env : Env) (mx v pd up us : Int) :
    ∀ x ∈ (rawhid_open st env mx v pd up us).1, ∃ hd, x.handle = some hd := by
  unfold rawhid_open
  dsimp only
  by_cases hmx : mx < 1
  · rw [if_pos hmx]
    intro x hx
    simp at hx
  rw [if_neg hmx]
  by_cases hl : env.listOk
  · rw [if_neg (by simpa using hl)]
    dsimp only
    intro x hx
    have h0 : RegInv (0, 0, 0) ⟨0, 0, 0, [], []⟩ :=
      ⟨rfl, List.Pairwise.nil, by intro y hy; simp at hy⟩
    obtain ⟨hd, e1, _, _, _⟩ :=
      (regInv_procDevices mx v pd up us env.devices 0 ⟨0, 0, 0, [], []⟩ h0).2.2 x hx
    exact ⟨hd, e1⟩
  · rw [if_pos hl]
    intro x hx
    simp at hx

/-- Any `rawhid_open` call decomposes as: the teardown trace of the
previous registry first, then a discovery whose registry, count and trace
are those of the same call run from an empty registry. -/
lemma rawhid_open_decomp (st : List Hid) (env : Env) (mx v pd up us : Int) :
    rawhid_open st env mx v pd up us =
      ((rawhid_open [] env mx v pd up us).1,
       (rawhid_open [] env mx v pd up us).2.1,
       free_all_hid_evs st ++ (rawhid_open [] env mx v pd up us).2.2) := by
  unfold rawhid_open
  dsimp only
  by_cases hmx : mx < 1
  · rw [if_pos hmx, if_pos hmx]
    simp [free_all_hid_evs]
  rw [if_neg hmx, if_neg hmx]
  by_cases hl : env.listOk
  · rw [if_neg (by simpa using hl), if_neg (by simpa using hl)]
    simp [free_all_hid_evs]
  · rw [if_pos hl, if_pos hl]
    simp [free_all_hid_evs]

/-- Claim C7: a second discovery call first emits, before any
registration event, the release-and-close teardown of every entry the
first call created (each first-call entry's handle is released and
closed in that prefix, which contains no registration), and its final
registry and count are exactly those of a discovery run against an empty
registry — the second pass alone. -/
theorem c7_rediscovery_teardown (st : List Hid) (env1 env2 : Env)
    (mx1 v1 pd1 up1 us1 mx2 v2 pd2 up2 us2 : Int) :
    (rawhid_open (rawhid_open st env1 mx1 v1 pd1 up1 us1).1
        env2 mx2 v2 pd2 up2 us2).1 =
      (rawhid_open [] env2 mx2 v2 pd2 up2 us2).1 ∧
    (rawhid_open (rawhid_open st env1 mx1 v1 pd1 up1 us1).1
        env2 mx2 v2 pd2 up2 us2).2.1 =
      (rawhid_open [] env2 mx2 v2 pd2 up2 us2).2.1 ∧
    (rawhid_open (rawhid_open st env1 mx1 v1 pd1 up1 us1).1
        env2 mx2 v2 pd2 up2 us2).2.2 =
      free_all_hid_evs (rawhid_open st env1 mx1 v1 pd1 up1 us1).1 ++
        (rawhid_open [] env2 mx2 v2 pd2 up2 us2).2.2 ∧
    (∀ hd, Ev.record hd ∉
      free_all_hid_evs (rawhid_open st env1 mx1 v1 pd1 up1 us1).1) ∧
    (∀ x ∈ (rawhid_open st env1 mx1 v1 pd1 up1 us1).1, ∃ hd,
      x.handle = some hd ∧
      Ev.releaseI hd x.iface ∈
        free_all_hid_evs (rawhid_open st env1 mx1 v1 pd1 up1 us1).1 ∧
      Ev.closeDev hd ∈
        free_all_hid_evs (rawhid_open st env1 mx1 v1 pd1 up1 us1).1) := by
  have hdec := rawhid_open_decomp (rawhid_open st env1 mx1 v1 pd1 up1 us1).1
    env2 mx2 v2 pd2 up2 us2
  refine ⟨by rw [hdec], by rw [hdec], by rw [hdec], ?_, ?_⟩
  · intro hd hmem
    rcases free_all_hid_evs_shape _ _ hmem with ⟨_, _, h⟩ | ⟨_, h⟩ <;> cases h
  · intro x hx
    obtain ⟨hd, hh⟩ := rawhid_open_handle_set st env1 mx1 v1 pd1 up1 us1 x hx
    obtain ⟨h1, h2⟩ := mem_free_all_of_handle _ x hd hx hh
    exact ⟨hd, hh, h1, h2⟩

/-- Claim C10: with `maxCount < 1`, `rawhid_open` still tears the
previous registry down first (the emitted trace is exactly the teardown
of the prior entries), then returns 0 with an empty registry, having
opened no device and registered nothing. -/
theorem c10_teardown_before_max_check (st : List Hid) (env : Env)
    (mx v pd up us : Int) (hmx : mx < 1) :
    rawhid_open st env mx v pd up us = ([], 0, free_all_hid_evs st) ∧
    (∀ hd, Ev.openDev hd ∉ free_all_hid_evs st) ∧
    (∀ hd, Ev.record hd ∉ free_all_hid_evs st) := by
  refine ⟨?_, ?_, ?_⟩
  · unfold rawhid_open
    dsimp only
    rw [if_pos hmx]
  · intro hd hmem
    rcases free_all_hid_evs_shape _ _ hmem with ⟨_, _, h⟩ | ⟨_, h⟩ <;> cases h
  · intro hd hmem
    rcases free_all_hid_evs_shape _ _ hmem with ⟨_, _, h⟩ | ⟨_, h⟩ <;> cases h

/-- Claim C10 witness: a registry holding one open entry is torn down
(release then close) even though `maxCount = 0` aborts discovery. -/
theorem c10_teardown_before_max_check_witness :
    rawhid_open [(⟨some (0, 0, 0), true, 0, 1, 0⟩ : Hid)] envStale
        0 (-1) (-1) (-1) (-1) =
      ([], 0, [Ev.releaseI (0, 0, 0) 0, Ev.closeDev (0, 0, 0)]) := by
  rw [(c10_teardown_before_max_check [(⟨some (0, 0, 0), true, 0, 1, 0⟩ : Hid)]
    envStale 0 (-1) (-1) (-1) (-1) (by norm_num)).1]
  decide

/-- Claim C9: `rawhid_close` twice on the same index: the second call
changes nothing and emits no events (so the underlying release and close
happen at most once across both calls), and the first call's trace is
either empty or exactly one release followed by one close. -/
theorem c9_close_idempotent (st : List Hid) (num : Int) :
    rawhid_close (rawhid_close st num).1 num = ((rawhid_close st num).1, []) ∧
    ((rawhid_close st num).2 = [] ∨ ∃ hd n,
      (rawhid_close st num).2 = [Ev.releaseI hd n, Ev.closeDev hd]) := by
  induction st generalizing num with
  | nil => simp [rawhid_close]
  | cons h rest ih =>
    by_cases hn : num > 0
    · obtain ⟨ih1, ih2⟩ := ih (num - 1)
      rw [rawhid_close, if_pos hn]
      constructor
      · rw [rawhid_close, if_pos hn]
        dsimp only
        rw [ih1]
      · exact ih2
    · rw [rawhid_close, if_neg hn]
      by_cases ho : h.openFlag
      · rw [if_pos ho]
        rcases hh : h.handle with _ | hd
        · rw [hid_close, hh]
          dsimp only
          constructor
          · rw [rawhid_close, if_neg hn, if_pos ho, hid_close, hh]
          · exact Or.inl rfl
        · rw [hid_close, hh]
          dsimp only
          constructor
          · rw [rawhid_close, if_neg hn]
            rw [if_pos (show ({ h with handle := none } : Hid).openFlag from ho)]
            rw [hid_close]
          · exact Or.inr ⟨hd, h.iface, rfl⟩
      · rw [if_neg ho]
        constructor
        · rw [rawhid_close, if_neg hn, if_neg ho]
        · exact Or.inl rfl

/-- Claim C4 evaluation at the failing input: an entry closed by
`rawhid_close` keeps its `open` flag (only the handle is nulled), so a
subsequent `rawhid_recv` on the same index passes the `!hid->open` guard
and submits the transfer with the NULL handle; with the external transfer
answering 5 bytes, the call returns 5, not the -1 the claim requires for
closed entries. -/
theorem c4_recv_after_close_eval :
    (rawhid_close [(⟨some (0, 0, 0), true, 0, 1, 0⟩ : Hid)] 0).1 =
      [⟨none, true, 0, 1, 0⟩] ∧
    rawhid_recv (rawhid_close [(⟨some (0, 0, 0), true, 0, 1, 0⟩ : Hid)] 0).1
      (fun _ _ _ _ => XferRes.ok 5) 0 64 100 = 5 ∧
    rawhid_recv (rawhid_close [(⟨some (0, 0, 0), true, 0, 1, 0⟩ : Hid)] 0).1
      (fun _ _ _ _ => XferRes.ok 5) 0 64 100 ≠ -1 := by
  refine ⟨rfl, rfl, by decide⟩

/-- Claim C7 witness: the registry left by a second discovery pass over
`envTwoAlts`, after a first pass over `envStale`, equals the registry of a
fresh pass over `envTwoAlts`. -/
theorem c7_rediscovery_teardown_witness :
    (rawhid_open (rawhid_open [] envStale 2 (-1) (-1) (-1) (-1)).1
        envTwoAlts 2 (-1) (-1) (-1) (-1)).1 =
      (rawhid_open [] envTwoAlts 2 (-1) (-1) (-1) (-1)).1 :=
  (c7_rediscovery_teardown [] envStale envTwoAlts
    2 (-1) (-1) (-1) (-1) 2 (-1) (-1) (-1) (-1)).1

/-- Claim C9 witness: double close of the single open entry at index 0. -/
theorem c9_close_idempotent_witness :
    rawhid_close (rawhid_close [(⟨some (0, 0, 0), true, 0, 1, 0⟩ : Hid)] 0).1 0 =
      ((rawhid_close [(⟨some (0, 0, 0), true, 0, 1, 0⟩ : Hid)] 0).1, []) :=
  (c9_close_idempotent [(⟨some (0, 0, 0), true, 0, 1, 0⟩ : Hid)] 0).1

/-- The fuel argument of `scanLoop` is irrelevant once it covers `e - p`:
every successful decode strictly advances the cursor, so `candScan`'s
`length + 1` fuel computes the C `while` loop exactly. -/
lemma scanLoop_fuel_stable (buf : Nat → Nat) (e : Nat) :
    ∀ (f1 f2 p pg u : Nat), e ≤ f1 + p → e ≤ f2 + p →
      scanLoop buf e f1 p pg u = scanLoop buf e f2 p pg u := by
  intro f1
  induction f1 with
  | zero =>
    intro f2 p pg u h1 h2
    have hp : ¬ p < e := by omega
    rcases f2 with _ | m
    · rfl
    · simp only [scanLoop, if_neg hp]
  | succ n ih =>
    intro f2 p pg u h1 h2
    rcases f2 with _ | m
    · have hp : ¬ p < e := by omega
      simp only [scanLoop, if_neg hp]
    · simp only [scanLoop]
      by_cases hp : p < e
      · rw [if_pos hp, if_pos hp]
        rcases hres : hid_parse_item buf p e with _ | ⟨t, v, p'⟩
        · rfl
        · have hadv : p < p' := hid_parse_item_some_lt hres
          dsimp only
          by_cases hstop : (if t = 4 then v else pg) ≠ 0 ∧ (if t = 8 then v else u) ≠ 0
          · rw [if_pos hstop, if_pos hstop]
          · rw [if_neg hstop, if_neg hstop]
            exact ih m p' _ _ (by omega) (by omega)
      · rw [if_neg hp, if_neg hp]

end RawHid
